import Mathlib

/-!
Shallow embedding of the Le-Coach chat backend prompt-assembly code:
`src/backend/src/plugins/chat.ts` (class `ChatService`) and
`src/backend/src/routes/root.ts` (the `/chat` and `/chat/stream` routes),
together with the `MessageBuilder` utility they rely on.

The `MessageBuilder` implementation file (`src/backend/src/lib/message-builder.ts`)
is not part of the available sources, so it is modelled from the specification
(sections 3 and 4.1).  External collaborators (the vector store, the chat
model, Fastify plumbing, Azure credentials) are abstracted: the retrieval
result enters as the already-joined `sources` string, the token estimator as
a function parameter, and the generation call as an `Except` value.
-/

namespace LeCoach

/-- Chat roles accepted by the system (the `@microsoft/ai-chat-protocol`
message roles used by the backend).  The spec declares any other role value
undefined behaviour, so only the three accepted values are modelled. -/
inductive Role where
  | system
  | user
  | assistant
deriving DecidableEq

/-- A chat message: a role together with its text content
(`AIChatMessage` of `@microsoft/ai-chat-protocol`). -/
structure AIChatMessage where
  role : Role
  content : String
deriving DecidableEq

/-- The hard-coded system prompt of `chat.ts` (`SYSTEM_MESSAGE_PROMPT`). -/
def SYSTEM_MESSAGE_PROMPT : String :=
  "You are an AI coach designed to help people achieve their health and fitness goals. Answer questions by referencing the knowledge base provided below. If there isn\x27t enough information in the sources, say you don\x27t know. Do not generate answers that don\x27t use the provided sources. \n\nFor any recommendations, always cite the specific source of information using square brackets, for example: [document1.pdf]. List each source separately, don\x27t combine them, for example: [document1.pdf][document2.pdf].\n\nYour answers should always be backed by relevant information from the sources. Always reference the sources. You can ask a follow up question but reserve that for the most needed cases. \n\nThe ideal response should give the user exactly what they need to know - nothing more, nothing less. To emphasize, be concise. \n"

/-- Modelled from the spec: the `MessageBuilder` state
(`src/backend/src/lib/message-builder.ts` is not among the available
sources).  Spec section 3: `messages` is the ordered message sequence,
initialised to exactly the system message; `tokens` is the running total of
estimated tokens across all current messages.  The `tokenModel` identifier
only selects the token-counting function, so it is abstracted into the
estimator parameter `est` each operation receives; token counts are
integers. -/
structure MessageBuilder where
  messages : List AIChatMessage
  tokens : Int
deriving DecidableEq

/-- Modelled from the spec: `MessageBuilder(systemMessage, tokenModel)`
initialises `messages` to `[{role: system, content: systemMessage}]` and
`tokens` to the estimated token count of that single message (spec 4.1). -/
def MessageBuilder.make (est : AIChatMessage → Nat) (systemContent : String) :
    MessageBuilder :=
  let sys : AIChatMessage := ⟨Role.system, systemContent⟩
  ⟨[sys], (est sys : Int)⟩

/-- Modelled from the spec: `appendMessage(role, content)` adds a message and
increases `tokens` by its estimate (spec 4.1).  The insertion position is
index 1 (right after the system message): this is the unique reading
consistent with the rest of the spec — section 3 states the exposed order is
system first, history oldest-to-newest, current user turn last, and that
only index 1 may be evicted; the truncation contract (spec 4.1, step 3)
states "the just-appended message is undone via `popMessage()`", and
`popMessage` removes index 1.  Since the caller appends the current user
turn first and then walks history newest-first, inserting each message at
index 1 produces exactly that chronological order and makes index 1 the
just-appended message throughout the walk. -/
def MessageBuilder.appendMessage (est : AIChatMessage → Nat)
    (mb : MessageBuilder) (role : Role) (content : String) : MessageBuilder :=
  let m : AIChatMessage := ⟨role, content⟩
  match mb.messages with
  | [] => ⟨[m], mb.tokens + est m⟩
  | s :: rest => ⟨s :: m :: rest, mb.tokens + est m⟩

/-- Modelled from the spec: `popMessage()` removes the message at index 1
and decreases `tokens` by that removed message's estimated token count
(spec 4.1).  With fewer than 2 messages the spec allows "no-op or fails";
the no-op option is modelled. -/
def MessageBuilder.popMessage (est : AIChatMessage → Nat)
    (mb : MessageBuilder) : MessageBuilder :=
  match mb.messages with
  | s :: m :: rest => ⟨s :: rest, mb.tokens - est m⟩
  | _ => mb

/-- Modelled from the spec: `getMessages()` returns the current `messages`
sequence unmodified (spec 4.1). -/
def MessageBuilder.getMessages (mb : MessageBuilder) : List AIChatMessage :=
  mb.messages

/-- One mutating `MessageBuilder` operation, for stating invariants over
arbitrary operation sequences. -/
inductive BuilderOp where
  | append (role : Role) (content : String)
  | pop
deriving DecidableEq

/-- Apply one `BuilderOp`. -/
def MessageBuilder.applyOp (est : AIChatMessage → Nat) (mb : MessageBuilder) :
    BuilderOp → MessageBuilder
  | .append role content => mb.appendMessage est role content
  | .pop => mb.popMessage est

/-- Apply a sequence of `BuilderOp`s, left to right. -/
def MessageBuilder.applyOps (est : AIChatMessage → Nat) (mb : MessageBuilder) :
    List BuilderOp → MessageBuilder
  | [] => mb
  | op :: ops => (mb.applyOp est op).applyOps est ops

/-- Sum of the estimated token counts of a list of messages, as an integer. -/
def sumTok (est : AIChatMessage → Nat) (l : List AIChatMessage) : Int :=
  (l.map fun m => (est m : Int)).sum

/-- Embedding of the caller-driven truncation loop of `ChatService.run`
(`chat.ts` lines 61-67): for each remaining history message (already
reversed, newest first), if the builder's running `tokens` exceeds the token
limit, `popMessage()` is called and the loop breaks (the rest of the list is
discarded); otherwise the history message is appended and the walk
continues.  The check sits at the top of the loop body, before the append of
the current iteration's message. -/
def truncateHistory (est : AIChatMessage → Nat) (tokenLimit : Int)
    (mb : MessageBuilder) : List AIChatMessage → MessageBuilder
  | [] => mb
  | h :: rest =>
    if mb.tokens > tokenLimit then mb.popMessage est
    else truncateHistory est tokenLimit (mb.appendMessage est h.role h.content) rest

/-- Embedding of the `ChatService` instance state (`chat.ts`): the public
field `tokenLimit: number = 4000`.  The model, vector store and config are
external collaborators and are abstracted out of the state. -/
structure ChatService where
  tokenLimit : Int := 4000

/-- Embedding of the prompt-assembly part of `ChatService.run` (`chat.ts`
lines 33-73).  The input `messages` array is split here as
`history ++ [current]`: `current` embeds `messages[messages.length - 1]`
and `history` embeds `messages.slice(0, -1)`.  `sources` is the
already-joined retrieval text (`results.join('\n')`); the vector search that
produces it is external.  The function returns the builder state right
after the truncation loop, whose `getMessages()` is what `model.invoke`
receives. -/
def ChatService.run (c : ChatService) (est : AIChatMessage → Nat)
    (sources : String) (history : List AIChatMessage)
    (current : AIChatMessage) : MessageBuilder :=
  let query := current.content
  let userMessage := query ++ "\n\nSources:\n" ++ sources
  let mb := MessageBuilder.make est SYSTEM_MESSAGE_PROMPT
  let mb := mb.appendMessage est Role.user userMessage
  truncateHistory est c.tokenLimit mb history.reverse

/-- The system message `ChatService.run` constructs. -/
def systemMessageOf : AIChatMessage :=
  ⟨Role.system, SYSTEM_MESSAGE_PROMPT⟩

/-- The combined current-user-plus-retrieved-context message
`ChatService.run` constructs (`chat.ts` line 54). -/
def currentUserMessage (sources : String) (current : AIChatMessage) :
    AIChatMessage :=
  ⟨Role.user, current.content ++ "\n\nSources:\n" ++ sources⟩

/-- Token total of the builder right after the system message and the
current user message have been added, before any history is walked. -/
def baseTokens (est : AIChatMessage → Nat) (sources : String)
    (current : AIChatMessage) : Int :=
  (est systemMessageOf : Int) + est (currentUserMessage sources current)

/-- The member names the `ChatService` class body declares (`chat.ts` lines
22-31 and onward): the `tokenLimit` field, the constructor, and the single
method `run`.  No `runWithStreaming` member is declared. -/
def ChatService.memberNames : List String :=
  ["tokenLimit", "constructor", "run"]

/-- A route handler's reply, as produced by the handlers in `root.ts`:
a successful JSON body, a successful ndjson stream, or the
`reply.internalServerError(...)` taken in the catch branches. -/
inductive RouteReply where
  | ok (body : String)
  | ndjson (chunks : List String)
  | internalServerError (message : String)
deriving DecidableEq

/-- Embedding of the `POST /chat` handler (`root.ts` lines 10-19): the
awaited `fastify.chat.run(messages)` call either returns a completion body
or throws; a throw is caught and answered with
`reply.internalServerError(error.message)`. -/
def postChat (runResult : Except String String) : RouteReply :=
  match runResult with
  | .ok body => .ok body
  | .error e => .internalServerError e

/-- The `TypeError` message JavaScript raises when
`fastify.chat.runWithStreaming` is `undefined` and is called. -/
def runWithStreamingMissingError : String :=
  "fastify.chat.runWithStreaming is not a function"

/-- Embedding of the `POST /chat/stream` handler (`root.ts` lines 21-31).
Dynamic dispatch is modelled by the declared member-name table of the
service object: if `runWithStreaming` is among the members, the awaited call
either yields the stream chunks (each serialised with a trailing newline by
`createNdJsonStream`) or throws; if the member is absent, the property
access yields `undefined` and the call throws a `TypeError`.  Either throw
is caught and answered with `reply.internalServerError(error.message)`. -/
def postChatStream (memberNames : List String)
    (streamResult : Except String (List String)) : RouteReply :=
  if "runWithStreaming" ∈ memberNames then
    match streamResult with
    | .ok chunks => .ndjson (chunks.map fun c => c ++ "\n")
    | .error e => .internalServerError e
  else
    .internalServerError runWithStreamingMissingError

/-- Builder state during the truncation walk: the system message `s`, then
the already-included history block `acc` (chronological order), then the
current user message `u`; `tokens` equal to the sum of the estimates.  Used
only by the proofs. -/
def histState (est : AIChatMessage → Nat) (s u : AIChatMessage)
    (acc : List AIChatMessage) : MessageBuilder :=
  ⟨s :: (acc ++ [u]), (est s : Int) + est u + sumTok est acc⟩

/-- A concrete token estimator used to evaluate the development on concrete
inputs: a fixed cost per role, independent of the content. -/
def estDemo : AIChatMessage → Nat
  | ⟨Role.system, _⟩ => 3
  | ⟨Role.user, _⟩ => 5
  | ⟨Role.assistant, _⟩ => 7

theorem histState_tokens (est : AIChatMessage → Nat) (s u : AIChatMessage)
    (acc : List AIChatMessage) :
    (histState est s u acc).tokens = (est s : Int) + est u + sumTok est acc :=
  rfl

theorem sumTok_cons (est : AIChatMessage → Nat) (m : AIChatMessage)
    (l : List AIChatMessage) :
    sumTok est (m :: l) = (est m : Int) + sumTok est l := by
  simp [sumTok]

theorem sumTok_reverse (est : AIChatMessage → Nat) (l : List AIChatMessage) :
    sumTok est l.reverse = sumTok est l := by
  simp [sumTok, List.sum_reverse]

theorem append_histState (est : AIChatMessage → Nat) (s u : AIChatMessage)
    (acc : List AIChatMessage) (m : AIChatMessage) :
    (histState est s u acc).appendMessage est m.role m.content
      = histState est s u (m :: acc) := by
  cases m with
  | mk role content =>
    simp [histState, MessageBuilder.appendMessage, sumTok]
    ring

theorem pop_histState_cons (est : AIChatMessage → Nat) (s u a : AIChatMessage)
    (as : List AIChatMessage) :
    (histState est s u (a :: as)).popMessage est = histState est s u as := by
  simp [histState, MessageBuilder.popMessage, sumTok]
  ring

theorem pop_histState_nil (est : AIChatMessage → Nat) (s u : AIChatMessage) :
    (histState est s u []).popMessage est = ⟨[s], (est s : Int)⟩ := by
  simp [histState, MessageBuilder.popMessage, sumTok]

theorem truncate_spec (est : AIChatMessage → Nat) (L : Int)
    (s u : AIChatMessage) (r : List AIChatMessage) :
    ∀ acc : List AIChatMessage,
      (truncateHistory est L (histState est s u acc) r
          = histState est s u (r.reverse ++ acc)
        ∧ ∀ j, j < r.length →
            (histState est s u ((r.take j).reverse ++ acc)).tokens ≤ L)
      ∨ (∃ t, t < r.length
          ∧ (histState est s u ((r.take t).reverse ++ acc)).tokens > L
          ∧ (∀ j, j < t →
              (histState est s u ((r.take j).reverse ++ acc)).tokens ≤ L)
          ∧ truncateHistory est L (histState est s u acc) r
              = (histState est s u ((r.take t).reverse ++ acc)).popMessage est) := by
  induction r with
  | nil =>
    intro acc
    exact Or.inl ⟨rfl, fun j hj => absurd hj (by simp)⟩
  | cons h rest ih =>
    intro acc
    by_cases hc : (histState est s u acc).tokens > L
    · refine Or.inr ⟨0, by simp, by simpa using hc,
        fun j hj => absurd hj (Nat.not_lt_zero j), ?_⟩
      simp only [truncateHistory, if_pos hc]
      simp
    · have hstep : truncateHistory est L (histState est s u acc) (h :: rest)
          = truncateHistory est L (histState est s u (h :: acc)) rest := by
        simp only [truncateHistory, if_neg hc, append_histState]
      rcases ih (h :: acc) with ⟨heq, hch⟩ | ⟨t, ht, htok, hch, heq⟩
      · left
        constructor
        · rw [hstep, heq]
          congr 1
          simp
        · intro j hj
          cases j with
          | zero =>
            simpa using not_lt.mp hc
          | succ j' =>
            have hj' : j' < rest.length := by simpa using hj
            have := hch j' hj'
            simpa [List.take_succ_cons, List.reverse_cons,
              List.append_assoc] using this
      · right
        refine ⟨t + 1, by simpa using ht, ?_, ?_, ?_⟩
        · simpa [List.take_succ_cons, List.reverse_cons,
            List.append_assoc] using htok
        · intro j hj
          cases j with
          | zero =>
            simpa using not_lt.mp hc
          | succ j' =>
            have hj' : j' < t := by omega
            have := hch j' hj'
            simpa [List.take_succ_cons, List.reverse_cons,
              List.append_assoc] using this
        · rw [hstep, heq]
          congr 2
          simp

theorem run_as_walk (c : ChatService) (est : AIChatMessage → Nat)
    (sources : String) (history : List AIChatMessage)
    (current : AIChatMessage) :
    c.run est sources history current
      = truncateHistory est c.tokenLimit
          (histState est systemMessageOf (currentUserMessage sources current) [])
          history.reverse := by
  have hmb : (MessageBuilder.make est SYSTEM_MESSAGE_PROMPT).appendMessage est
      Role.user (current.content ++ "\n\nSources:\n" ++ sources)
      = histState est systemMessageOf (currentUserMessage sources current) [] := by
    simp [MessageBuilder.make, MessageBuilder.appendMessage, histState,
      systemMessageOf, currentUserMessage, sumTok]
  simp only [ChatService.run, hmb]

theorem reverse_take_reverse {α : Type} (l : List α) (t : Nat) :
    (l.reverse.take t).reverse = l.drop (l.length - t) := by
  rw [← List.rtake_eq_reverse_take_reverse, List.rtake]

theorem run_shape (c : ChatService) (est : AIChatMessage → Nat)
    (sources : String) (history : List AIChatMessage) (current : AIChatMessage)
    (hbase : baseTokens est sources current ≤ c.tokenLimit) :
    ∃ d, d ≤ history.length
      ∧ (c.run est sources history current).getMessages
          = systemMessageOf
              :: (history.drop d ++ [currentUserMessage sources current])
      ∧ (∀ i, d ≤ i → 1 ≤ i → i < history.length →
          baseTokens est sources current + sumTok est (history.drop i)
            ≤ c.tokenLimit)
      ∧ (d = 0 ∨ baseTokens est sources current
            + sumTok est (history.drop (d - 1)) > c.tokenLimit) := by
  have hrw := run_as_walk c est sources history current
  set s := systemMessageOf with hs
  set u := currentUserMessage sources current with hu
  set L := c.tokenLimit with hL
  set k := history.length with hk
  have hBtok : ∀ acc, (histState est s u acc).tokens
      = baseTokens est sources current + sumTok est acc := by
    intro acc
    rw [histState_tokens]
    rw [baseTokens]
  have hTake : ∀ j, (history.reverse.take j).reverse ++ ([] : List AIChatMessage)
      = history.drop (k - j) := by
    intro j
    rw [List.append_nil, reverse_take_reverse]
  rcases truncate_spec est L s u history.reverse [] with
    ⟨heq, hch⟩ | ⟨t, ht, htok, hch, heq⟩
  · refine ⟨0, Nat.zero_le _, ?_, ?_, Or.inl rfl⟩
    · rw [hrw, heq, MessageBuilder.getMessages]
      simp [histState]
    · intro i hdi h1i hik
      have hj : k - i < history.reverse.length := by
        rw [List.length_reverse]
        omega
      have := hch (k - i) hj
      rw [hTake (k - i)] at this
      rw [hBtok] at this
      rw [show k - (k - i) = i by omega] at this
      exact this
  · have hlen : t < k := by
      rw [List.length_reverse] at ht
      exact ht
    have ht1 : 1 ≤ t := by
      by_contra h0
      have ht0 : t = 0 := by omega
      rw [ht0, hTake 0] at htok
      rw [hBtok] at htok
      simp at htok
      rw [hk, List.drop_length] at htok
      simp [sumTok] at htok
      omega
    have hdropcons : history.drop (k - t)
        = history.get ⟨k - t, by omega⟩ :: history.drop (k - t + 1) := by
      have : k - t < history.length := by omega
      rw [List.drop_eq_getElem_cons this]
      simp
    refine ⟨k - t + 1, by omega, ?_, ?_, Or.inr ?_⟩
    · rw [hrw, heq, hTake t, hdropcons, pop_histState_cons,
        MessageBuilder.getMessages]
      simp [histState]
    · intro i hdi h1i hik
      have hj : k - i < t := by omega
      have := hch (k - i) hj
      rw [hTake (k - i)] at this
      rw [hBtok] at this
      rw [show k - (k - i) = i by omega] at this
      exact this
    · rw [show k - t + 1 - 1 = k - t by omega]
      rw [hTake t, hBtok] at htok
      exact htok

theorem run_overflow_pops_user (c : ChatService) (est : AIChatMessage → Nat)
    (sources : String) (history : List AIChatMessage) (current : AIChatMessage)
    (hbase : baseTokens est sources current > c.tokenLimit)
    (hne : history ≠ []) :
    (c.run est sources history current).getMessages = [systemMessageOf] := by
  rw [run_as_walk]
  have hne' : history.reverse ≠ [] := by simpa using hne
  obtain ⟨h, rest, hcons⟩ := List.exists_cons_of_ne_nil hne'
  rw [hcons]
  have hc : (histState est systemMessageOf (currentUserMessage sources current)
      []).tokens > c.tokenLimit := by
    rw [histState_tokens]
    simpa [sumTok, baseTokens] using hbase
  simp only [truncateHistory, if_pos hc]
  rw [pop_histState_nil, MessageBuilder.getMessages]

theorem applyOp_head (est : AIChatMessage → Nat) (mb : MessageBuilder)
    (op : BuilderOp) (x : AIChatMessage)
    (h : mb.messages.head? = some x) :
    (mb.applyOp est op).messages.head? = some x := by
  cases op with
  | append r c =>
    rcases hm : mb.messages with _ | ⟨s0, rest⟩
    · rw [hm] at h
      cases h
    · rw [hm] at h
      simp at h
      simp [MessageBuilder.applyOp, MessageBuilder.appendMessage, hm, h]
  | pop =>
    rcases hm : mb.messages with _ | ⟨s0, _ | ⟨m, rest⟩⟩
    · simp only [MessageBuilder.applyOp, MessageBuilder.popMessage, hm]
      rw [hm] at h
      exact h
    · simp only [MessageBuilder.applyOp, MessageBuilder.popMessage, hm]
      rw [hm] at h
      exact h
    · rw [hm] at h
      simp at h
      simp [MessageBuilder.applyOp, MessageBuilder.popMessage, hm, h]

theorem applyOp_tokens (est : AIChatMessage → Nat) (mb : MessageBuilder)
    (op : BuilderOp)
    (h : mb.tokens = sumTok est mb.messages) :
    (mb.applyOp est op).tokens = sumTok est (mb.applyOp est op).messages := by
  cases op with
  | append r c =>
    rcases hm : mb.messages with _ | ⟨s0, rest⟩
    · rw [hm] at h
      simp [sumTok] at h
      simp [MessageBuilder.applyOp, MessageBuilder.appendMessage, hm, sumTok, h]
    · rw [hm] at h
      simp [MessageBuilder.applyOp, MessageBuilder.appendMessage, hm, sumTok] at h ⊢
      rw [h]
      ring
  | pop =>
    rcases hm : mb.messages with _ | ⟨s0, _ | ⟨m, rest⟩⟩
    · simpa [MessageBuilder.applyOp, MessageBuilder.popMessage, hm, sumTok] using h
    · simpa [MessageBuilder.applyOp, MessageBuilder.popMessage, hm, sumTok] using h
    · rw [hm] at h
      simp [MessageBuilder.applyOp, MessageBuilder.popMessage, hm, sumTok] at h ⊢
      rw [h]
      ring

theorem applyOps_head (est : AIChatMessage → Nat) (ops : List BuilderOp) :
    ∀ (mb : MessageBuilder) (x : AIChatMessage),
      mb.messages.head? = some x →
      (mb.applyOps est ops).messages.head? = some x := by
  induction ops with
  | nil => exact fun mb x h => h
  | cons op ops ih =>
    intro mb x h
    exact ih (mb.applyOp est op) x (applyOp_head est mb op x h)

theorem applyOps_tokens (est : AIChatMessage → Nat) (ops : List BuilderOp) :
    ∀ mb : MessageBuilder,
      mb.tokens = sumTok est mb.messages →
      (mb.applyOps est ops).tokens = sumTok est (mb.applyOps est ops).messages := by
  induction ops with
  | nil => exact fun mb h => h
  | cons op ops ih =>
    intro mb h
    exact ih (mb.applyOp est op) (applyOp_tokens est mb op h)

/-- C1 (amended): the overflow check of the truncation loop runs at the top
of each iteration, before that iteration's append, so an over-budget append
is undone only when an older history message remains to be walked.
Consequently, provided the system plus current-user messages fit within the
token limit, every history message remaining in the final sequence *except
possibly the chronologically oldest input history message* (the last one
walked, whose overflow is never re-checked) did not push the running total
above the token limit: for every remaining `history.drop d` and every index
`i ≥ max d 1`, the running total right after `history[i]` was appended
(base tokens plus the estimates of `history[i], …, history[k-1]`) is within
the limit. -/
theorem claim1_theorem (c : ChatService) (est : AIChatMessage → Nat)
    (sources : String) (history : List AIChatMessage) (current : AIChatMessage)
    (hbase : baseTokens est sources current ≤ c.tokenLimit) :
    ∃ d, d ≤ history.length
      ∧ (c.run est sources history current).getMessages
          = systemMessageOf
              :: (history.drop d ++ [currentUserMessage sources current])
      ∧ ∀ i, d ≤ i → 1 ≤ i → i < history.length →
          baseTokens est sources current + sumTok est (history.drop i)
            ≤ c.tokenLimit := by
  obtain ⟨d, h1, h2, h3, _⟩ := run_shape c est sources history current hbase
  exact ⟨d, h1, h2, h3⟩

/-- C1 counterexample: with token limit 10, a base of 8 tokens and a single
(hence oldest) history message of 7 tokens, the append of that history
message pushes the running total to 15 > 10, yet the loop ends (history is
exhausted) before the next overflow check, so the overflowing message
remains in the final sequence — refuting the claim that no history message
whose append pushed the total above the limit remains. -/
theorem claim1_counterexample :
    ((⟨Role.assistant, "old"⟩ : AIChatMessage)
        ∈ ((⟨10⟩ : ChatService).run estDemo "src"
            [⟨Role.assistant, "old"⟩] ⟨Role.user, "q"⟩).getMessages)
    ∧ baseTokens estDemo "src" ⟨Role.user, "q"⟩
        + sumTok estDemo [⟨Role.assistant, "old"⟩]
        > (⟨10⟩ : ChatService).tokenLimit := by
  decide

/-- C1 witness: the amended theorem applied at a concrete input. -/
theorem claim1_witness :
    baseTokens estDemo "src" ⟨Role.user, "q"⟩ ≤ (⟨10⟩ : ChatService).tokenLimit
    ∧ ∃ d, d ≤ ([⟨Role.assistant, "old"⟩] : List AIChatMessage).length
      ∧ ((⟨10⟩ : ChatService).run estDemo "src" [⟨Role.assistant, "old"⟩]
            ⟨Role.user, "q"⟩).getMessages
          = systemMessageOf
              :: (([⟨Role.assistant, "old"⟩] : List AIChatMessage).drop d
                  ++ [currentUserMessage "src" ⟨Role.user, "q"⟩])
      ∧ ∀ i, d ≤ i → 1 ≤ i →
          i < ([⟨Role.assistant, "old"⟩] : List AIChatMessage).length →
          baseTokens estDemo "src" ⟨Role.user, "q"⟩
              + sumTok estDemo
                  (([⟨Role.assistant, "old"⟩] : List AIChatMessage).drop i)
            ≤ (⟨10⟩ : ChatService).tokenLimit :=
  ⟨by decide, claim1_theorem ⟨10⟩ estDemo "src" [⟨Role.assistant, "old"⟩]
    ⟨Role.user, "q"⟩ (by decide)⟩

/-- C2 (amended): provided the system message plus the combined
current-user message fit within the token limit, the message sequence passed
to the generation call is the system message first, then the included
history messages oldest-to-newest (a suffix `history.drop d` of the
chronological history), then the current user turn last.  (When the base
already exceeds the limit and history is nonempty, the first loop check pops
the current user message instead — see the counterexample.) -/
theorem claim2_theorem (c : ChatService) (est : AIChatMessage → Nat)
    (sources : String) (history : List AIChatMessage) (current : AIChatMessage)
    (hbase : baseTokens est sources current ≤ c.tokenLimit) :
    ∃ d, (c.run est sources history current).getMessages
        = systemMessageOf
            :: (history.drop d ++ [currentUserMessage sources current]) := by
  obtain ⟨d, _, h2, _, _⟩ := run_shape c est sources history current hbase
  exact ⟨d, h2⟩

/-- C2 counterexample: with token limit 6 and a base of 8 tokens, the first
loop check fires immediately and `popMessage()` removes the current user
message (index 1), leaving only the system message — the generated sequence
does not end with the current user turn, refuting the claimed ordering for
every input conversation. -/
theorem claim2_counterexample :
    ¬ ∃ d, ((⟨6⟩ : ChatService).run estDemo "ctx"
          [⟨Role.assistant, "h"⟩] ⟨Role.user, "q2"⟩).getMessages
        = systemMessageOf
            :: (([⟨Role.assistant, "h"⟩] : List AIChatMessage).drop d
                ++ [currentUserMessage "ctx" ⟨Role.user, "q2"⟩]) := by
  have hres : ((⟨6⟩ : ChatService).run estDemo "ctx"
      [⟨Role.assistant, "h"⟩] ⟨Role.user, "q2"⟩).getMessages
      = [systemMessageOf] := by rfl
  rintro ⟨d, hd⟩
  rw [hres] at hd
  have hlen := congrArg List.length hd
  simp at hlen

/-- C2 witness: the amended theorem applied at a concrete input. -/
theorem claim2_witness :
    baseTokens estDemo "ctx" ⟨Role.user, "why"⟩
        ≤ (⟨4000⟩ : ChatService).tokenLimit
    ∧ ∃ d, ((⟨4000⟩ : ChatService).run estDemo "ctx"
          [⟨Role.user, "h1"⟩, ⟨Role.assistant, "h2"⟩]
          ⟨Role.user, "why"⟩).getMessages
        = systemMessageOf
            :: (([⟨Role.user, "h1"⟩, ⟨Role.assistant, "h2"⟩]
                  : List AIChatMessage).drop d
                ++ [currentUserMessage "ctx" ⟨Role.user, "why"⟩]) :=
  ⟨by decide, claim2_theorem ⟨4000⟩ estDemo "ctx"
    [⟨Role.user, "h1"⟩, ⟨Role.assistant, "h2"⟩] ⟨Role.user, "why"⟩ (by decide)⟩

/-- C3 (amended): the combined current-user-plus-context message is appended
before any history is walked, and — provided the system message plus that
combined message fit within the token limit — it is present in the final
message sequence, as its last element; no `popMessage()` call of the
truncation loop removes it.  (When the base already exceeds the limit and
history is nonempty, the first loop check does pop it — see the
counterexample.) -/
theorem claim3_theorem (c : ChatService) (est : AIChatMessage → Nat)
    (sources : String) (history : List AIChatMessage) (current : AIChatMessage)
    (hbase : baseTokens est sources current ≤ c.tokenLimit) :
    (c.run est sources history current).getMessages.getLast?
      = some (currentUserMessage sources current)
    ∧ currentUserMessage sources current
        ∈ (c.run est sources history current).getMessages := by
  obtain ⟨d, _, h2, _, _⟩ := run_shape c est sources history current hbase
  rw [h2]
  constructor
  · rw [← List.cons_append, List.getLast?_concat]
  · simp

/-- C3 counterexample: with token limit 7 and a base of 8 tokens, the first
iteration of the truncation loop pops the just-built current-user message
(`popMessage()` removes index 1 of `[system, user]`), so the combined
current-user message is absent from the final sequence — refuting the claim
that it is never removed by any `popMessage()` call during truncation. -/
theorem claim3_counterexample :
    currentUserMessage "ctx" ⟨Role.user, "question"⟩
      ∉ ((⟨7⟩ : ChatService).run estDemo "ctx"
          [⟨Role.assistant, "a"⟩] ⟨Role.user, "question"⟩).getMessages := by
  decide

/-- C3 witness: the amended theorem applied at a concrete input. -/
theorem claim3_witness :
    baseTokens estDemo "data" ⟨Role.user, "now"⟩
        ≤ (⟨4000⟩ : ChatService).tokenLimit
    ∧ ((⟨4000⟩ : ChatService).run estDemo "data" [⟨Role.assistant, "prev"⟩]
          ⟨Role.user, "now"⟩).getMessages.getLast?
        = some (currentUserMessage "data" ⟨Role.user, "now"⟩)
    ∧ currentUserMessage "data" ⟨Role.user, "now"⟩
        ∈ ((⟨4000⟩ : ChatService).run estDemo "data" [⟨Role.assistant, "prev"⟩]
            ⟨Role.user, "now"⟩).getMessages :=
  ⟨by decide, claim3_theorem ⟨4000⟩ estDemo "data" [⟨Role.assistant, "prev"⟩]
    ⟨Role.user, "now"⟩ (by decide)⟩

/-- C4: the token budget used by the truncation loop is the `tokenLimit`
field of the `ChatService` instance — an externally settable integer input —
and its default value is exactly 4000; `run` bounds the walk by precisely
that field. -/
theorem claim4_theorem :
    ({} : ChatService).tokenLimit = 4000
    ∧ ∀ (c : ChatService) (est : AIChatMessage → Nat) (sources : String)
        (history : List AIChatMessage) (current : AIChatMessage),
        c.run est sources history current
          = truncateHistory est c.tokenLimit
              ((MessageBuilder.make est SYSTEM_MESSAGE_PROMPT).appendMessage est
                Role.user (current.content ++ "\n\nSources:\n" ++ sources))
              history.reverse :=
  ⟨rfl, fun _ _ _ _ _ => rfl⟩

/-- C5: the truncation loop walks prior history newest-first, so the
included history is always a contiguous suffix `history.drop d` of the
chronological history — once the first overflow occurs the walk stops and no
older history message is appended or tried, even if a smaller older message
would have fit: the cut index `d` satisfies `d = 0` (everything fitted) or
the running total right after the message just below the cut was appended
exceeded the limit.  In the degenerate case where the base itself exceeds
the limit and history is nonempty, no history is appended at all (and the
first check pops the current user message). -/
theorem claim5_theorem (c : ChatService) (est : AIChatMessage → Nat)
    (sources : String) (history : List AIChatMessage)
    (current : AIChatMessage) :
    (∃ d, d ≤ history.length
      ∧ (c.run est sources history current).getMessages
          = systemMessageOf
              :: (history.drop d ++ [currentUserMessage sources current])
      ∧ (d = 0 ∨ baseTokens est sources current
            + sumTok est (history.drop (d - 1)) > c.tokenLimit))
    ∨ (baseTokens est sources current > c.tokenLimit ∧ history ≠ []
        ∧ (c.run est sources history current).getMessages
            = [systemMessageOf]) := by
  by_cases hbase : baseTokens est sources current ≤ c.tokenLimit
  · left
    obtain ⟨d, h1, h2, _, h4⟩ := run_shape c est sources history current hbase
    exact ⟨d, h1, h2, h4⟩
  · push_neg at hbase
    by_cases hne : history = []
    · left
      refine ⟨0, by simp, ?_, Or.inl rfl⟩
      subst hne
      rw [run_as_walk]
      simp [truncateHistory, histState, MessageBuilder.getMessages]
    · right
      exact ⟨hbase, hne,
        run_overflow_pops_user c est sources history current hbase hne⟩

/-- C6: every request to POST /chat/stream is answered with an internal
server error: the route invokes `fastify.chat.runWithStreaming(messages)`,
but the `ChatService` class declares no `runWithStreaming` member, so the
call throws a `TypeError` and the catch branch replies with
`internalServerError` — whatever a streaming implementation would have
returned. -/
theorem claim6_theorem (streamResult : Except String (List String)) :
    postChatStream ChatService.memberNames streamResult
      = RouteReply.internalServerError runWithStreamingMissingError := rfl

/-- C7: for every sequence of `appendMessage`/`popMessage` operations
applied to a freshly constructed `MessageBuilder`, the head of `messages`
is the system message: `popMessage` never removes it (with only the system
message left it is a no-op), and the sequence is never left empty or without
the system message at index 0. -/
theorem claim7_theorem (est : AIChatMessage → Nat) (systemContent : String)
    (ops : List BuilderOp) :
    ((MessageBuilder.make est systemContent).applyOps est ops).messages.head?
      = some ⟨Role.system, systemContent⟩ :=
  applyOps_head est ops _ _ rfl

/-- C8: after any sequence of `MessageBuilder` operations (construction,
`appendMessage`, `popMessage`), the `tokens` field equals the sum of the
per-message estimated token counts of all messages currently in `messages`,
including the initial system message. -/
theorem claim8_theorem (est : AIChatMessage → Nat) (systemContent : String)
    (ops : List BuilderOp) :
    ((MessageBuilder.make est systemContent).applyOps est ops).tokens
      = sumTok est
          ((MessageBuilder.make est systemContent).applyOps est ops).messages :=
  applyOps_tokens est ops _ (by simp [MessageBuilder.make, sumTok])

/-- C9: for every `MessageBuilder` state with at least one non-system
message, calling `popMessage()` and then immediately re-appending a message
with the popped message's role and content restores `tokens` to its value
before the pop. -/
theorem claim9_theorem (est : AIChatMessage → Nat) (mb : MessageBuilder)
    (s m : AIChatMessage) (rest : List AIChatMessage)
    (h : mb.messages = s :: m :: rest) :
    ((mb.popMessage est).appendMessage est m.role m.content).tokens
      = mb.tokens := by
  cases m with
  | mk role content =>
    simp [MessageBuilder.popMessage, MessageBuilder.appendMessage, h]

/-- C9 witness: the round-trip theorem applied at a concrete builder. -/
theorem claim9_witness :
    (⟨[⟨Role.system, "sp"⟩, ⟨Role.user, "hi"⟩], 42⟩
        : MessageBuilder).messages
      = ⟨Role.system, "sp"⟩ :: ⟨Role.user, "hi"⟩ :: []
    ∧ (((⟨[⟨Role.system, "sp"⟩, ⟨Role.user, "hi"⟩], 42⟩
            : MessageBuilder).popMessage estDemo).appendMessage estDemo
          Role.user "hi").tokens
      = (⟨[⟨Role.system, "sp"⟩, ⟨Role.user, "hi"⟩], 42⟩
          : MessageBuilder).tokens :=
  ⟨rfl, claim9_theorem estDemo _ ⟨Role.system, "sp"⟩ ⟨Role.user, "hi"⟩ [] rfl⟩

/-- C10: for POST /chat and POST /chat/stream, if the awaited
retrieval-plus-generation call throws, the route handler answers with a
generic internal-server-error reply carrying the error message, rather than
propagating the raw exception (for the stream route, this covers any
service object whose member table does contain `runWithStreaming`). -/
theorem claim10_theorem (members : List String)
    (runResult : Except String String)
    (streamResult : Except String (List String)) (e e' : String)
    (hrun : runResult = Except.error e)
    (hstream : streamResult = Except.error e')
    (hm : "runWithStreaming" ∈ members) :
    postChat runResult = RouteReply.internalServerError e
    ∧ postChatStream members streamResult
        = RouteReply.internalServerError e' := by
  subst hrun
  subst hstream
  exact ⟨rfl, by simp [postChatStream, hm]⟩

/-- C10 witness: the error-propagation theorem applied at concrete failing
calls. -/
theorem claim10_witness :
    (Except.error "retrieval failed" : Except String String)
        = Except.error "retrieval failed"
    ∧ (Except.error "model down" : Except String (List String))
        = Except.error "model down"
    ∧ "runWithStreaming" ∈ ["runWithStreaming"]
    ∧ postChat (Except.error "retrieval failed")
        = RouteReply.internalServerError "retrieval failed"
    ∧ postChatStream ["runWithStreaming"] (Except.error "model down")
        = RouteReply.internalServerError "model down" :=
  ⟨rfl, rfl, by decide,
    claim10_theorem ["runWithStreaming"] (Except.error "retrieval failed")
      (Except.error "model down") "retrieval failed" "model down" rfl rfl
      (by decide)⟩

end LeCoach
